import Mathlib

/-!
Verification of the Tetris engine implemented in
`src/app/tetris/tetris.ts`.

The engine state lives in the `Tetris` Angular component: a 20×10 board
of color strings (`""` = empty cell), the active piece (a shape bit
matrix, a color and an `(x, y)` anchor), and the score / high-score /
level / lines counters.  Below, each TypeScript method is rendered as a
pure Lean function on an explicit `GameState`; randomness (piece
selection in `spawnPiece`) is made explicit by passing the chosen
tetromino as an argument, and the `clearLines` scan loop — which walks
the row index downwards but re-checks an index after a removal — is
rendered with a fuel parameter that strictly dominates its iteration
count on 20-row boards.
-/

namespace Tetris

/-- A piece shape: a bit matrix, rows of 0/1 entries. -/
abbrev Shape := List (List Nat)

/-- The board: rows of cells, each cell a color string, `""` when empty. -/
abbrev Board := List (List String)

/-- `this.cols = 10`. -/
def cols : Nat := 10

/-- `this.rows = 20`. -/
def rows : Nat := 20

/-- Matrix lookup `m[i][j]`, defaulting to `0` out of range. -/
def getD2 (m : Shape) (i j : Nat) : Nat := (m.getD i []).getD j 0

/-- Board lookup `board[y][x]`, defaulting to `""` out of range. -/
def boardGet (b : Board) (y x : Nat) : String := (b.getD y []).getD x ""

/-- The `Tetromino` interface: `{ shape: number[][]; color: string }`. -/
structure Tetromino where
  shape : Shape
  color : String
deriving DecidableEq, Repr

/-- The piece catalog `this.tetrominoes`, in object-insertion order
I, J, L, O, S, T, Z. -/
def tetrominoes : List Tetromino :=
  [ { shape := [[0, 0, 0, 0], [1, 1, 1, 1], [0, 0, 0, 0], [0, 0, 0, 0]],
      color := "#00f0f0" },
    { shape := [[1, 0, 0], [1, 1, 1], [0, 0, 0]], color := "#0000f0" },
    { shape := [[0, 0, 1], [1, 1, 1], [0, 0, 0]], color := "#f0a000" },
    { shape := [[1, 1], [1, 1]], color := "#f0f000" },
    { shape := [[0, 1, 1], [1, 1, 0], [0, 0, 0]], color := "#00f000" },
    { shape := [[0, 1, 0], [1, 1, 1], [0, 0, 0]], color := "#a000f0" },
    { shape := [[1, 1, 0], [0, 1, 1], [0, 0, 0]], color := "#f00000" } ]

/-- The mutable component state that the engine methods read and write. -/
structure GameState where
  board : Board
  shape : Shape
  color : String
  posX : Int
  posY : Int
  score : Nat
  highScore : Nat
  level : Nat
  lines : Nat
  dropInterval : Int
  gameStarted : Bool
  gameOver : Bool
deriving DecidableEq, Repr

/-- `initializeBoard()`: a `rows × cols` grid of empty cells. -/
def initializeBoard : Board := List.replicate rows (List.replicate cols "")

/-- `isValidMove(x, y)`: every filled cell `(row, col)` of the active
shape must land at a column in `[0, cols)`, at a row index `< rows`,
and — when its row index is non-negative — on an empty board cell. -/
def isValidMove (board : Board) (shape : Shape) (x y : Int) : Bool :=
  (List.range shape.length).all fun row =>
    (List.range (shape.getD row []).length).all fun col =>
      if getD2 shape row col ≠ 0 then
        let newX : Int := x + col
        let newY : Int := y + row
        if newX < 0 ∨ (cols : Int) ≤ newX ∨ (rows : Int) ≤ newY then
          false
        else if 0 ≤ newY ∧ boardGet board newY.toNat newX.toNat ≠ "" then
          false
        else
          true
      else
        true

/-- `rotate(matrix)`: the 90° clockwise rotation
`rotated[j][n-1-i] = matrix[i][j]` of an `n×n` matrix. -/
def rotate (matrix : Shape) : Shape :=
  let n := matrix.length
  (List.range n).map fun j => (List.range n).map fun k => getD2 matrix (n - 1 - k) j

/-- `lockPiece()` board write: every filled shape cell with a
non-negative board row gets tagged with the piece's color. -/
def lockBoard (b : Board) (shape : Shape) (color : String) (x y : Int) : Board :=
  (List.range shape.length).foldl
    (fun b row =>
      (List.range (shape.getD row []).length).foldl
        (fun b col =>
          if getD2 shape row col ≠ 0 then
            let Y : Int := y + row
            let X : Int := x + col
            if 0 ≤ Y then
              b.set Y.toNat ((b.getD Y.toNat []).set X.toNat color)
            else
              b
          else
            b)
        b)
    b

/-- `lockPiece()` on the whole state. -/
def lockPiece (st : GameState) : GameState :=
  { st with board := lockBoard st.board st.shape st.color st.posX st.posY }

/-- A row is full when every cell is non-empty (`cell !== ''`). -/
def isFullRow (r : List String) : Bool := r.all fun cell => cell ≠ ""

/-- The empty row unshifted onto the board after a clear. -/
def emptyRow : List String := List.replicate cols ""

/-- The `clearLines` scan: walk `row` from the bottom upwards; on a full
row, splice it out, unshift an empty row on top, and re-check the same
index (the source's `row++` compensating the loop's `row--`); otherwise
decrement.  `fuel` bounds the iteration count; `2 * rows + 1` strictly
dominates it on 20-row boards (at most `rows` decrements plus at most
`rows` removals). -/
def clearRowsLoop : Nat → Board → Int → Nat → Board × Nat
  | 0, b, _, cleared => (b, cleared)
  | fuel + 1, b, row, cleared =>
    if row < 0 then
      (b, cleared)
    else if isFullRow (b.getD row.toNat []) then
      clearRowsLoop fuel (emptyRow :: b.eraseIdx row.toNat) row (cleared + 1)
    else
      clearRowsLoop fuel b (row - 1) cleared

/-- The board-rewriting part of `clearLines()`, started at the bottom row. -/
def clearRows (b : Board) : Board × Nat :=
  clearRowsLoop (2 * rows + 1) b ((rows : Int) - 1) 0

/-- The inline level formula `Math.floor(this.lines() / 10) + 1`. -/
def levelForLines (totalLines : Nat) : Nat := totalLines / 10 + 1

/-- The inline speed formula `Math.max(100, 1000 - (newLevel - 1) * 100)`. -/
def dropIntervalForLevel (level : Nat) : Int :=
  max 100 (1000 - ((level : Int) - 1) * 100)

/-- `clearLines()`: rewrite the board, and when lines were cleared bump
the `lines` counter and, if the derived level changed, the `level` and
`dropInterval`.  Returns the updated state and the cleared-line count. -/
def clearLines (st : GameState) : GameState × Nat :=
  let res := clearRows st.board
  let b := res.1
  let linesCleared := res.2
  if linesCleared > 0 then
    let newLines := st.lines + linesCleared
    let newLevel := levelForLines newLines
    if newLevel ≠ st.level then
      ({ st with board := b, lines := newLines, level := newLevel,
                 dropInterval := dropIntervalForLevel newLevel }, linesCleared)
    else
      ({ st with board := b, lines := newLines }, linesCleared)
  else
    ({ st with board := b }, linesCleared)

/-- `updateScore(linesCleared)`: add `points[linesCleared] || 0` times
the current level to the score, then raise the high score when beaten. -/
def updateScore (linesCleared : Nat) (st : GameState) : GameState :=
  let baseScore := ([0, 100, 300, 500, 800] : List Nat).getD linesCleared 0
  let newScore := st.score + baseScore * st.level
  let st1 := { st with score := newScore }
  if newScore > st1.highScore then { st1 with highScore := newScore } else st1

/-- `endGame()` state flags (the canvas drawing is rendering-only). -/
def endGame (st : GameState) : GameState :=
  { st with gameStarted := false, gameOver := true }

/-- `spawnPiece()`, with the randomly chosen catalog piece made an
explicit argument: center the piece horizontally at `y = 0`, and end
the game when the starting placement is invalid. -/
def spawnPiece (p : Tetromino) (st : GameState) : GameState :=
  let spawnX : Int := (cols : Int) / 2 - (((p.shape.headD []).length : Int) / 2)
  let st1 := { st with shape := p.shape, color := p.color, posX := spawnX, posY := 0 }
  if ¬ isValidMove st1.board st1.shape st1.posX st1.posY then endGame st1 else st1

/-- The lock sequence a blocked descent triggers: lock the piece, clear
lines, score them when any were cleared, spawn the next piece. -/
def lockAndRespawn (next : Tetromino) (st : GameState) : GameState :=
  let st1 := lockPiece st
  let res := clearLines st1
  let st2 := if res.2 > 0 then updateScore res.2 res.1 else res.1
  spawnPiece next st2

/-- `movePiece(dx, dy)`: commit the displaced anchor when the placement
is valid; otherwise, on a downward move, run the lock sequence; otherwise
do nothing. -/
def movePiece (dx dy : Int) (next : Tetromino) (st : GameState) : GameState :=
  let newX := st.posX + dx
  let newY := st.posY + dy
  if isValidMove st.board st.shape newX newY then
    { st with posX := newX, posY := newY }
  else if dy > 0 then
    lockAndRespawn next st
  else
    st

/-- The wall-kick scan of `rotatePiece()`: the first offset of the list
at which the rotated shape placement is valid. -/
def tryKicks (board : Board) (shape : Shape) (x y : Int) : List Int → Option Int
  | [] => none
  | o :: rest =>
    if isValidMove board shape (x + o) y then some o else tryKicks board shape x y rest

/-- The kick offsets tried, in order. -/
def kickOffsets : List Int := [0, 1, -1, 2, -2]

/-- `rotatePiece()`: rotate the shape clockwise, commit it at the first
valid kick offset, else discard the rotation. -/
def rotatePiece (st : GameState) : GameState :=
  let rotated := rotate st.shape
  match tryKicks st.board rotated st.posX st.posY kickOffsets with
  | some o => { st with shape := rotated, posX := st.posX + o }
  | none => st

/-- The descent loop of `hardDrop()`: step down while valid, awarding 2
points per step.  `fuel` bounds the iterations; any shape with a filled
cell can descend fewer than `rows + 4` times, so `2 * rows` dominates
every reachable state. -/
def hardDropLoop : Nat → GameState → GameState
  | 0, st => st
  | fuel + 1, st =>
    if isValidMove st.board st.shape st.posX (st.posY + 1) then
      hardDropLoop fuel { st with posY := st.posY + 1, score := st.score + 2 }
    else
      st

/-- `hardDrop()`: drop to the floor with bonus points, then lock, clear,
score and respawn. -/
def hardDrop (next : Tetromino) (st : GameState) : GameState :=
  lockAndRespawn next (hardDropLoop (2 * rows) st)

/-- The scoring table as the spec words it: 0→0, 1→100, 2→300, 3→500,
4→800, any larger count defaults to 0; multiplied by the level. -/
def scoreForClear (linesCleared level : Nat) : Nat :=
  (match linesCleared with
   | 0 => 0
   | 1 => 100
   | 2 => 300
   | 3 => 500
   | 4 => 800
   | _ + 5 => 0) * level

/-- An O piece over an empty board at the spawn anchor, counters zeroed. -/
def demoState : GameState :=
  { board := initializeBoard, shape := [[1, 1], [1, 1]], color := "#f0f000",
    posX := 4, posY := 0, score := 0, highScore := 0, level := 1, lines := 0,
    dropInterval := 1000, gameStarted := true, gameOver := false }

/-- The O tetromino. -/
def pieceO : Tetromino := { shape := [[1, 1], [1, 1]], color := "#f0f000" }

/-- The same O piece resting on the floor (anchor row 18). -/
def bottomState : GameState := { demoState with posY := 18 }

/-- A state whose top two board rows are fully occupied. -/
def blockedState : GameState :=
  { demoState with
    board := List.replicate 2 (List.replicate 10 "#ffffff") ++
             List.replicate 18 (List.replicate 10 "") }

/-- A row with one empty cell (not full). -/
def partialRow : List String := "" :: List.replicate 9 "#ffffff"

/-- A completely occupied row. -/
def fullRow10 : List String := List.replicate 10 "#ffffff"

/-- A 20×10 board whose rows 3 and 7 are full and all other rows are not. -/
def boardRows37 : Board :=
  List.replicate 3 partialRow ++ [fullRow10] ++ List.replicate 3 partialRow ++
    [fullRow10] ++ List.replicate 12 partialRow

/-- Engine state carrying `boardRows37`. -/
def stateRows37 : GameState := { demoState with board := boardRows37 }

/-- A state one cleared row short of 25 total lines, with level and drop
interval consistent with its 24 cleared lines. -/
def stateLines24 : GameState :=
  { demoState with board := fullRow10 :: List.replicate 19 partialRow,
                   lines := 24, level := 3, dropInterval := 800 }

/-- The board well-formedness invariant: 20 rows of 10 cells. -/
def boardWF (b : Board) : Prop := b.length = rows ∧ ∀ r ∈ b, r.length = cols

/-- C5: the score delta of `updateScore` equals the spec's lookup table
(0→0, 1→100, 2→300, 3→500, 4→800, larger counts→0) times the current
level; in particular 4 lines at level 2 add 1600 and 0 lines add 0. -/
theorem updateScore_delta (n : Nat) (st : GameState) :
    (updateScore n st).score = st.score + scoreForClear n st.level := by
  rcases n with _ | _ | _ | _ | _ | n <;>
    · simp only [updateScore, scoreForClear, List.getD]
      split <;> simp

/-- C4 (amended): after line-clear scoring (`updateScore`) the stored
high score equals the maximum of the new running score and the previous
high score, so `score ≤ highScore` holds there; this is the only place
the engine checks the high score. -/
theorem updateScore_highScore (n : Nat) (st : GameState) :
    (updateScore n st).highScore = max (updateScore n st).score st.highScore := by
  simp only [updateScore]
  set b := ([0, 100, 300, 500, 800] : List Nat).getD n 0 with hb
  split <;> simp <;> omega

/-- C4 (counterexample): a hard drop of an O piece down an empty board
adds 2 points per descent step without any high-score check and clears
no lines, leaving the running score (36) strictly above the stored high
score (0) at the end of the operation. -/
theorem hardDrop_cex :
    (hardDrop pieceO demoState).highScore < (hardDrop pieceO demoState).score := by
  decide

/-- C9: applying the 90° clockwise `rotate` four times returns a matrix
bit-identical to the original shape, for each of the seven catalog
tetrominoes I, J, L, O, S, T, Z. -/
theorem rotate_four_times_id :
    tetrominoes.all (fun t => rotate (rotate (rotate (rotate t.shape))) == t.shape) = true := by
  decide

/-- C8 (amended): `movePiece` commits the displaced anchor when the
candidate placement is valid; on an invalid candidate with `dy ≤ 0` it
leaves the state unchanged; on an invalid candidate with `dy > 0` it
does not leave the state unchanged but runs the lock sequence (lock the
piece, clear lines, score them, spawn the next piece). -/
theorem movePiece_spec (dx dy : Int) (next : Tetromino) (st : GameState) :
    (isValidMove st.board st.shape (st.posX + dx) (st.posY + dy) = true →
      movePiece dx dy next st = { st with posX := st.posX + dx, posY := st.posY + dy })
  ∧ (isValidMove st.board st.shape (st.posX + dx) (st.posY + dy) = false → dy ≤ 0 →
      movePiece dx dy next st = st)
  ∧ (isValidMove st.board st.shape (st.posX + dx) (st.posY + dy) = false → 0 < dy →
      movePiece dx dy next st = lockAndRespawn next st) := by
  refine ⟨fun h => ?_, fun h hdy => ?_, fun h hdy => ?_⟩
  · simp [movePiece, h]
  · simp [movePiece, h]
    omega
  · simp [movePiece, h, hdy]

/-- C8 (counterexample): a failed downward move does not leave the
state unchanged — moving an O piece resting on the floor down by one
locks it into the board and respawns, changing the state. -/
theorem movePiece_cex : movePiece 0 1 pieceO bottomState ≠ bottomState := by
  decide

/-- C8 (witness): a valid rightward move of the freshly spawned O piece
commits the displaced anchor. -/
theorem movePiece_witness :
    movePiece 1 0 pieceO demoState = { demoState with posX := 5, posY := 0 } :=
  (movePiece_spec 1 0 pieceO demoState).1 (by decide)

/-- C1: `isValidMove x y` returns true iff every filled cell
`(row, col)` of the shape satisfies `0 ≤ x+col < 10` and `y+row < 20`,
and, whenever `y+row ≥ 0`, lands on an empty board cell; cells with
`y+row < 0` are exempt from the occupancy check but still bound-checked
on `x`. -/
theorem isValidMove_iff (board : Board) (shape : Shape) (x y : Int) :
    isValidMove board shape x y = true ↔
      ∀ row < shape.length, ∀ col < (shape.getD row []).length,
        getD2 shape row col ≠ 0 →
          0 ≤ x + (col : Int) ∧ x + (col : Int) < (cols : Int) ∧
          y + (row : Int) < (rows : Int) ∧
          (0 ≤ y + (row : Int) →
            boardGet board (y + (row : Int)).toNat (x + (col : Int)).toNat = "") := by
  simp only [isValidMove, List.all_eq_true, List.mem_range]
  constructor
  · intro h row hr col hc hf
    have hb := h row hr col hc
    rw [if_pos hf] at hb
    split at hb
    · simp at hb
    · next hA =>
      push_neg at hA
      split at hb
      · simp at hb
      · next hB =>
        push_neg at hB
        exact ⟨by omega, by omega, by omega, fun hy => hB hy⟩
  · intro h row hr col hc
    split
    · next hf =>
      obtain ⟨h1, h2, h3, h4⟩ := h row hr col hc hf
      rw [if_neg (by push_neg; exact ⟨h1, h2, h3⟩)]
      rw [if_neg ?_]
      rintro ⟨hy, hne⟩
      exact hne (h4 hy)
    · rfl

/-- The wall-kick scan returns the first offset of the list whose
placement is valid, i.e. `List.find?` of the validity test. -/
theorem tryKicks_eq_find (board : Board) (shape : Shape) (x y : Int) (l : List Int) :
    tryKicks board shape x y l = l.find? fun o => isValidMove board shape (x + o) y := by
  induction l with
  | nil => rfl
  | cons o rest ih =>
    by_cases h : isValidMove board shape (x + o) y
    · simp [tryKicks, h, List.find?_cons_of_pos]
    · simp only [tryKicks, if_neg h]
      rw [ih, List.find?_cons_of_neg]
      simpa using h

/-- The entries of `rotate`: `rotated[j][n-1-i] = matrix[i][j]`. -/
theorem rotate_entry (m : Shape) (i j : Nat) (hi : i < m.length) (hj : j < m.length) :
    getD2 (rotate m) j (m.length - 1 - i) = getD2 m i j := by
  have h1 : m.length - 1 - i < m.length := by omega
  simp only [rotate, getD2, List.getD_eq_getElem?_getD, List.getElem?_map,
    List.getElem?_range hj, List.getElem?_range h1, Option.map_some', Option.getD_some]
  have h2 : m.length - 1 - (m.length - 1 - i) = i := by omega
  rw [h2]

/-- C3: `rotatePiece` computes the clockwise rotation
`rotated[col][n-1-row] = shape[row][col]`, commits it with the anchor
shifted by the first offset of `[0, 1, -1, 2, -2]` whose placement is
valid (the first conjunct states the rotation formula, the second the
commit at the first valid offset, found by `List.find?`), and leaves the
state — shape and anchor — exactly unchanged when no offset is valid. -/
theorem rotatePiece_spec (st : GameState) :
    (∀ i < st.shape.length, ∀ j < st.shape.length,
        getD2 (rotate st.shape) j (st.shape.length - 1 - i) = getD2 st.shape i j)
  ∧ (∀ o : Int,
      (kickOffsets.find? fun o =>
          isValidMove st.board (rotate st.shape) (st.posX + o) st.posY) = some o →
        rotatePiece st = { st with shape := rotate st.shape, posX := st.posX + o })
  ∧ ((kickOffsets.find? fun o =>
          isValidMove st.board (rotate st.shape) (st.posX + o) st.posY) = none →
        rotatePiece st = st) := by
  refine ⟨fun i hi j hj => rotate_entry st.shape i j hi hj, fun o ho => ?_, fun hn => ?_⟩
  · simp only [rotatePiece, tryKicks_eq_find, ho]
  · simp only [rotatePiece, tryKicks_eq_find, hn]

/-- C7: `spawnPiece` anchors the piece at
`x = floor(10/2) - floor(shapeWidth/2)`, `y = 0`, and when that starting
placement is invalid on the current board it transitions to the
game-over state. -/
theorem spawnPiece_spec (p : Tetromino) (st : GameState) :
    (spawnPiece p st).posX = (cols : Int) / 2 - ((p.shape.headD []).length : Int) / 2
  ∧ (spawnPiece p st).posY = 0
  ∧ (isValidMove st.board p.shape
        ((cols : Int) / 2 - ((p.shape.headD []).length : Int) / 2) 0 = false →
      (spawnPiece p st).gameOver = true ∧ (spawnPiece p st).gameStarted = false) := by
  refine ⟨?_, ?_, fun h => ?_⟩
  · simp only [spawnPiece, endGame]
    split <;> rfl
  · simp only [spawnPiece, endGame]
    split <;> rfl
  · simp only [spawnPiece, endGame, h]
    simp

/-- C7 (witness): spawning the O piece onto a board whose top two rows
are filled triggers game over. -/
theorem spawnPiece_witness :
    (spawnPiece pieceO blockedState).gameOver = true ∧
      (spawnPiece pieceO blockedState).gameStarted = false :=
  (spawnPiece_spec pieceO blockedState).2.2 (by decide)

/-- C3 (witness): rotating the freshly spawned O piece over an empty
board succeeds at kick offset 0. -/
theorem rotatePiece_witness :
    rotatePiece demoState = { demoState with shape := rotate demoState.shape,
                                             posX := demoState.posX + 0 } :=
  (rotatePiece_spec demoState).2.1 0 (by decide)

/-- Counting full and non-full rows partitions a board. -/
theorem countP_full_add_not (l : Board) :
    l.countP isFullRow + l.countP (fun r => !isFullRow r) = l.length := by
  induction l with
  | nil => rfl
  | cons a t ih =>
    by_cases h : isFullRow a <;> simp [List.countP_cons, h] <;> omega

/-- The `clearLines` scan loop, run from row index `m - 1` downwards
with enough fuel, removes exactly the full rows among the first `m`,
prepends one empty row per removal, and keeps the remaining rows in
order. -/
theorem clearRowsLoop_spec (fuel : Nat) :
    ∀ (b : Board) (m cleared : Nat),
      m ≤ b.length →
      m + (b.take m).countP isFullRow ≤ fuel →
      clearRowsLoop fuel b ((m : Int) - 1) cleared =
        (List.replicate ((b.take m).countP isFullRow) emptyRow ++
           (b.take m).filter (fun r => !isFullRow r) ++ b.drop m,
         cleared + (b.take m).countP isFullRow) := by
  induction fuel with
  | zero =>
    intro b m cleared hm hf
    have hm0 : m = 0 := by omega
    subst hm0
    simp [clearRowsLoop]
  | succ f ih =>
    intro b m cleared hm hf
    cases m with
    | zero =>
      norm_num [clearRowsLoop]
    | succ m' =>
      have hm'len : m' < b.length := by omega
      have hrow : ((m' + 1 : Nat) : Int) - 1 = (m' : Int) := by push_cast; ring
      have hnotneg : ¬ ((m' : Int) < 0) := by omega
      have hgetD : b.getD m' [] = b[m'] := by
        simp [List.getD_eq_getElem?_getD, List.getElem?_eq_getElem hm'len]
      have htake : b.take (m' + 1) = b.take m' ++ [b[m']] := by
        rw [List.take_succ, List.getElem?_eq_getElem hm'len]
        rfl
      have hlen_take : (b.take m').length = m' := by
        simp [List.length_take, Nat.min_eq_left (Nat.le_of_lt hm'len)]
      rw [hrow]
      simp only [clearRowsLoop]
      rw [if_neg hnotneg, Int.toNat_ofNat, hgetD]
      by_cases hfull : isFullRow b[m'] = true
      · rw [if_pos hfull]
        have hk : (b.take (m' + 1)).countP isFullRow
            = (b.take m').countP isFullRow + 1 := by
          rw [htake, List.countP_append, List.countP_cons]
          simp [hfull]
        have herase : b.eraseIdx m' = b.take m' ++ b.drop (m' + 1) :=
          List.eraseIdx_eq_take_drop_succ ..
        have hlen' : m' + 1 ≤ (emptyRow :: b.eraseIdx m').length := by
          simp [List.length_eraseIdx_of_lt hm'len]
          omega
        have htake' : (emptyRow :: b.eraseIdx m').take (m' + 1)
            = emptyRow :: b.take m' := by
          rw [List.take_succ_cons, herase,
            List.take_append_of_le_length (by omega), List.take_take]
          simp
        have hdrop' : (emptyRow :: b.eraseIdx m').drop (m' + 1) = b.drop (m' + 1) := by
          rw [List.drop_succ_cons, herase, List.drop_left' hlen_take]
        have hempty_notfull : isFullRow emptyRow = false := by decide
        have hcount' : ((emptyRow :: b.eraseIdx m').take (m' + 1)).countP isFullRow
            = (b.take m').countP isFullRow := by
          rw [htake']
          simp [List.countP_cons, hempty_notfull]
        have ihres := ih (emptyRow :: b.eraseIdx m') (m' + 1) (cleared + 1) hlen'
          (by rw [hcount']; omega)
        rw [hrow] at ihres
        rw [ihres, hcount', htake', hdrop', hk]
        simp only [Prod.mk.injEq]
        constructor
        · rw [htake, List.filter_append, List.replicate_succ']
          simp [List.filter_cons, hfull, hempty_notfull]
        · omega
      · rw [if_neg hfull]
        have hk0 : (b.take (m' + 1)).countP isFullRow
            = (b.take m').countP isFullRow := by
          rw [htake, List.countP_append, List.countP_cons]
          simp [hfull]
        rw [hk0] at hf
        have ihres := ih b m' cleared (by omega) (by omega)
        rw [ihres, hk0]
        simp only [Prod.mk.injEq]
        constructor
        · rw [htake, List.filter_append, List.drop_eq_getElem_cons hm'len]
          simp [List.filter_cons, hfull]
        · trivial

/-- On a 20-row board, the `clearLines` board rewrite removes exactly
the full rows, prepends that many empty rows, preserves the order of the
other rows, and counts the removals. -/
theorem clearRows_spec (b : Board) (hb : b.length = rows) :
    clearRows b =
      (List.replicate (b.countP isFullRow) emptyRow ++
         b.filter (fun r => !isFullRow r),
       b.countP isFullRow) := by
  have hcount : b.countP isFullRow ≤ b.length := List.countP_le_length isFullRow
  have ht : b.take rows = b := by rw [← hb]; exact List.take_length b
  have hd : b.drop rows = [] := by rw [← hb]; exact List.drop_length b
  have h := clearRowsLoop_spec (2 * rows + 1) b rows 0 (by omega)
    (by rw [ht]; omega)
  unfold clearRows
  rw [h, ht, hd]
  simp

/-- C2: `clearLines` removes exactly the full rows (all cells
non-empty), inserts one empty row at the top per removed row, preserves
the relative order and contents of the remaining rows, and returns the
number of rows removed. -/
theorem clearLines_spec (st : GameState)
    (hb : st.board.length = rows) (_hw : ∀ r ∈ st.board, r.length = cols) :
    (clearLines st).2 = st.board.countP isFullRow ∧
    (clearLines st).1.board =
      List.replicate (st.board.countP isFullRow) emptyRow ++
        st.board.filter (fun r => !isFullRow r) := by
  have h := clearRows_spec st.board hb
  simp only [clearLines, h]
  refine ⟨?_, ?_⟩ <;> split <;> (try split) <;> rfl

/-- C2 (witness): on a board whose rows 3 and 7 are full and all other
rows are not, `clearLines` removes exactly those two rows and returns
2. -/
theorem clearLines_witness :
    stateRows37.board.countP isFullRow = 2 ∧
    ((clearLines stateRows37).2 = stateRows37.board.countP isFullRow ∧
      (clearLines stateRows37).1.board =
        List.replicate (stateRows37.board.countP isFullRow) emptyRow ++
          stateRows37.board.filter (fun r => !isFullRow r)) :=
  ⟨by decide, clearLines_spec stateRows37 (by decide) (by decide)⟩

/-- C6: `clearLines` maintains `level = floor(totalLines/10) + 1` and
`dropInterval = max(100, 1000 - (level-1)*100)`; moreover 25 total lines
give level 3, level 3 gives an 800 ms interval, and level 20 hits the
100 ms floor. -/
theorem clearLines_level_spec (st : GameState)
    (hl : st.level = levelForLines st.lines)
    (hd : st.dropInterval = dropIntervalForLevel st.level) :
    ((clearLines st).1.level = levelForLines (clearLines st).1.lines ∧
     (clearLines st).1.dropInterval = dropIntervalForLevel (clearLines st).1.level) ∧
    levelForLines 25 = 3 ∧ dropIntervalForLevel 3 = 800 ∧
      dropIntervalForLevel 20 = 100 := by
  refine ⟨?_, by decide, by decide, by decide⟩
  simp only [clearLines]
  split
  · split
    · next hne => exact ⟨rfl, rfl⟩
    · next hne =>
      push_neg at hne
      exact ⟨by simp [hne, hl.symm], by simp [hd, hl, hne]⟩
  · exact ⟨by simp [hl], by simp [hd, hl]⟩

/-- C6 (witness): clearing one line at 24 total lines keeps the
level/interval invariant (25 lines, level 3, 800 ms). -/
theorem clearLines_level_witness :
    ((clearLines stateLines24).1.level = levelForLines (clearLines stateLines24).1.lines ∧
     (clearLines stateLines24).1.dropInterval =
       dropIntervalForLevel (clearLines stateLines24).1.level) ∧
    levelForLines 25 = 3 ∧ dropIntervalForLevel 3 = 800 ∧
      dropIntervalForLevel 20 = 100 :=
  clearLines_level_spec stateLines24 (by decide) (by decide)

/-- A fold whose step preserves board well-formedness preserves it. -/
theorem foldl_preserves_wf {α : Type} (f : Board → α → Board)
    (hf : ∀ b a, boardWF b → boardWF (f b a)) :
    ∀ (l : List α) (b : Board), boardWF b → boardWF (l.foldl f b) := by
  intro l
  induction l with
  | nil => intro b hb; exact hb
  | cons a t ih => intro b hb; exact ih _ (hf b a hb)

/-- Writing one cell preserves board well-formedness. -/
theorem setRow_wf (b : Board) (Y X : Nat) (c : String) (hb : boardWF b) :
    boardWF (b.set Y ((b.getD Y []).set X c)) := by
  obtain ⟨h1, h2⟩ := hb
  refine ⟨by simp [h1], ?_⟩
  intro r hr
  by_cases hY : Y < b.length
  · rcases List.mem_or_eq_of_mem_set hr with h | h
    · exact h2 r h
    · subst h
      rw [List.length_set]
      have hg : b.getD Y [] = b[Y] := by
        simp [List.getD_eq_getElem?_getD, List.getElem?_eq_getElem hY]
      rw [hg]
      exact h2 _ (List.getElem_mem hY)
  · rw [List.set_eq_of_length_le (Nat.le_of_not_lt hY)] at hr
    exact h2 r hr

/-- Locking a piece preserves board well-formedness. -/
theorem lockBoard_wf (b : Board) (shape : Shape) (c : String) (x y : Int)
    (hb : boardWF b) : boardWF (lockBoard b shape c x y) := by
  unfold lockBoard
  refine foldl_preserves_wf _ (fun b row hbb => ?_) _ b hb
  refine foldl_preserves_wf _ (fun b col hbc => ?_) _ b hbb
  dsimp only
  split
  · split
    · exact setRow_wf b _ _ c hbc
    · exact hbc
  · exact hbc

/-- C10: the board shape invariant — exactly 20 rows of exactly 10
string cells — holds after `initializeBoard`, is preserved by
`lockPiece` whenever the locked placement was valid, and is preserved by
`clearLines`. -/
theorem board_shape_invariant :
    boardWF initializeBoard
  ∧ (∀ st : GameState,
      boardWF st.board →
      isValidMove st.board st.shape st.posX st.posY = true →
      boardWF (lockPiece st).board)
  ∧ (∀ st : GameState, boardWF st.board → boardWF (clearLines st).1.board) := by
  refine ⟨⟨by decide, by decide⟩, fun st hwf hvalid => ?_, fun st hwf => ?_⟩
  · exact lockBoard_wf st.board st.shape st.color st.posX st.posY hwf
  · obtain ⟨h1, h2⟩ := hwf
    obtain ⟨hc, hbo⟩ := clearLines_spec st h1 h2
    rw [hbo]
    constructor
    · rw [List.length_append, List.length_replicate]
      have hfl : (st.board.filter fun r => !isFullRow r).length =
          st.board.countP (fun r => !isFullRow r) :=
        (List.countP_eq_length_filter _ _).symm
      rw [hfl]
      have := countP_full_add_not st.board
      omega
    · intro r hr
      rcases List.mem_append.1 hr with h | h
      · rw [List.eq_of_mem_replicate h]
        exact List.length_replicate cols ""
      · exact h2 r (List.mem_of_mem_filter h)

/-- C10 (witness): locking the O piece resting on the floor of an
empty board keeps the invariant. -/
theorem board_shape_invariant_witness :
    boardWF (lockPiece bottomState).board :=
  board_shape_invariant.2.1 bottomState ⟨by decide, by decide⟩ (by decide)

end Tetris
